import Mathlib

/-
  Verification development for the iggy streaming broker core.

  The definitions below are a shallow embedding of the Rust sources under
  `server/src/streaming` and `iggy/src`:
  machine integers become `Nat` with explicit truncation (`% 2 ^ w`) where the
  source casts, byte buffers become `List Nat` (every element < 256), fallible
  functions return `Except Error`, and `&mut self` methods become functions from
  the state to the new state.  Components that the source consumes only through
  an interface (the `SegmentStorage` trait, the `Compressor` trait backed by
  flate2) are modelled as explicit function parameters.  Definitions whose Rust
  source is not part of the provided slice are modelled from the specification
  and say so in their doc comment.
-/

namespace Iggy

/-- Little-endian encoding of a natural number into `w` bytes, mirroring the
`put_u32_le` / `put_u64_le` / `put_u128_le` writers of the `bytes` crate used
throughout the source. -/
def leBytes : Nat → Nat → List Nat
  | 0, _ => []
  | w + 1, n => n % 256 :: leBytes w (n / 256)

/-- Little-endian value of a byte list, mirroring `u32::from_le_bytes`,
`get_u64_le` and friends. -/
def leVal : List Nat → Nat
  | [] => 0
  | b :: bs => b + 256 * leVal bs

/-- Reading `w` little-endian bytes from the front of a buffer; `none` when the
buffer is too short (the source either length-checks first or panics, and the
round-trip claims only exercise the well-formed case). -/
def readLe (w : Nat) (b : List Nat) : Option (Nat × List Nat) :=
  if w ≤ b.length then some (leVal (b.take w), b.drop w) else none

/-- Domain errors of the broker, from `iggy/src/error.rs` (only the variants
surfaced by the embedded operations are carried). -/
inductive Error where
  | invalidCommand
  | invalidMessageState
  | invalidCompressionAlgorithm
  | invalidTopicId
  | invalidTopicName
  | tooManyPartitions
  | invalidReplicationFactor
  | invalidIdentifier
  | segmentClosed (startOffset partitionId : Nat)
  | topicIdAlreadyExists (topicId streamId : Nat)
  | topicNameAlreadyExists (name : List Nat) (streamId : Nat)
  | topicIdNotFound (topicId streamId : Nat)
  | topicNameNotFound (name : List Nat) (streamId : Nat)
  | cannotDeleteTopic (topicId streamId : Nat)
  | unauthenticated
  | permissionDenied
  | ioError
  deriving DecidableEq, Repr

instance {ε α : Type} [DecidableEq ε] [DecidableEq α] : DecidableEq (Except ε α) :=
  fun a b =>
    match a, b with
    | .ok x, .ok y =>
      if h : x = y then .isTrue (by rw [h]) else .isFalse (by intro c; cases c; exact h rfl)
    | .error x, .error y =>
      if h : x = y then .isTrue (by rw [h]) else .isFalse (by intro c; cases c; exact h rfl)
    | .ok _, .error _ => .isFalse (by intro c; cases c)
    | .error _, .ok _ => .isFalse (by intro c; cases c)

/-- Compression algorithms of the batch codec.  Modelled from the spec:
`iggy/src/compression/compression_algorithm.rs` is not in the provided slice;
the spec fixes code 0 = None and code 1 = Gzip, other codes reserved. -/
inductive CompressionAlgorithm where
  | none
  | gzip
  deriving DecidableEq, Repr

/-- Modelled from the spec: decoding the 2-bit compression code; invalid codes
fail with `InvalidCompressionAlgorithm`. -/
def CompressionAlgorithm.fromCode : Nat → Except Error CompressionAlgorithm
  | 0 => .ok .none
  | 1 => .ok .gzip
  | _ => .error .invalidCompressionAlgorithm

/-- Modelled from the spec: `algorithm.min_data_size()`, the payload size at or
below which `messages_to_batch` skips compression.  The spec does not fix the
constant; every result proved below holds for any value. -/
def CompressionAlgorithm.minDataSize : CompressionAlgorithm → Nat
  | .none => 0
  | .gzip => 100

/-- The two magic bytes that open every gzip stream; `flate2::read::GzDecoder`
rejects input that does not start with them. -/
def gzMagic : List Nat := [31, 139]

/-- Model of `GzCompressor::compress` (`iggy/src/compression/compressor.rs`,
delegating to flate2): a deterministic lossless encoding framed behind the gzip
header.  The model keeps exactly the properties the source relies on:
compression is invertible by `gzDecompress`, and its output carries the gzip
framing. -/
def gzCompress (data : List Nat) : List Nat := gzMagic ++ data

/-- Model of `GzCompressor::decompress`: fails (as `GzDecoder` does, with a
wrapped io error) unless the input starts with the gzip magic bytes, and
inverts `gzCompress`. -/
def gzDecompress (data : List Nat) : Except Error (List Nat) :=
  if data.take 2 = gzMagic then .ok (data.drop 2) else .error .ioError

/-- `MessagesBatchAttributes::get_compression_algorithm_code`
(`messages_batch.rs`, lines 51-53): `(attributes & 0b1100_0000) >> 6`, written
arithmetically; on byte values the two coincide. -/
def compressionCode (attributes : Nat) : Nat :=
  attributes / 64 % 4

/-- One message header entry.  Modelled from the spec: `headers` maps a
length-prefixed UTF-8 name to `{ kind: u8, value: length-prefixed bytes }`
(`iggy/src/models/header.rs` is not in the provided slice).  Names are
modelled as their byte sequences. -/
structure HeaderEntry where
  name : List Nat
  kind : Nat
  value : List Nat
  deriving DecidableEq, Repr

/-- Modelled from the spec: serialization of one header entry; name and value
are length-prefixed with little-endian `u32` lengths, the kind is one byte. -/
def HeaderEntry.toBytes (h : HeaderEntry) : List Nat :=
  leBytes 4 h.name.length ++ h.name ++ [h.kind % 256] ++ leBytes 4 h.value.length ++ h.value

/-- Serialization of a whole header map (the iteration order of the Rust
`HashMap` is modelled by the list order). -/
def headersToBytes (hs : List HeaderEntry) : List Nat :=
  (hs.map HeaderEntry.toBytes).flatten

/-- Option-valued slice of the first `n` bytes; `none` when the buffer is too
short. -/
def takeO (n : Nat) (b : List Nat) : Option (List Nat × List Nat) :=
  if n ≤ b.length then some (b.take n, b.drop n) else Option.none

/-- Modelled from the spec: `HashMap::from_bytes` parses successive header
entries until the buffer is exhausted.  The fuel argument bounds the recursion
by the buffer length; every entry consumes at least nine bytes. -/
def parseHeaders : Nat → List Nat → Option (List HeaderEntry)
  | _, [] => some []
  | 0, _ :: _ => Option.none
  | fuel + 1, x :: b => do
    let (nameLen, b) ← readLe 4 (x :: b)
    let (name, b) ← takeO nameLen b
    match b with
    | [] => Option.none
    | kind :: b => do
      let (valueLen, b) ← readLe 4 b
      let (value, b) ← takeO valueLen b
      let rest ← parseHeaders fuel b
      some (⟨name, kind, value⟩ :: rest)

/-- Valid message state codes.  Modelled from the spec: the `state: u8` field
has a closed set of valid codes and `MessageState::from_code` fails on the
others (`iggy/src/models/messages.rs` is not in the provided slice; the codes
are 1 = Available, 10 = Unavailable, 20 = Poisoned, 30 = MarkedForDeletion). -/
def validStateCode (c : Nat) : Bool :=
  c == 1 || c == 10 || c == 20 || c == 30

/-- Modelled from the spec: `MessageState::from_code`. -/
def messageStateFromCode (c : Nat) : Except Error Nat :=
  if validStateCode c then .ok c else .error .invalidMessageState

/-- A broker message.  The field layout follows the spec data model and the
little-endian walk of `MessagesBatch::into_messages`, which is in the slice
(`iggy/src/models/messages.rs` itself is not). -/
structure Message where
  offset : Nat
  state : Nat
  timestamp : Nat
  id : Nat
  checksum : Nat
  headers : Option (List HeaderEntry)
  length : Nat
  payload : List Nat
  deriving DecidableEq, Repr

/-- Bytes of the optional header map; an absent map serializes to nothing and a
zero `headers_len`. -/
def headersBytesOpt : Option (List HeaderEntry) → List Nat
  | Option.none => []
  | some hs => headersToBytes hs

/-- `Message::as_bytes`.  Modelled from the spec layout
`offset | state | timestamp | id | checksum | headers_len | headers | payload_len | payload`,
all little-endian; `into_messages` in the slice reads exactly this layout
back. -/
def Message.asBytes (m : Message) : List Nat :=
  leBytes 8 m.offset ++ [m.state % 256] ++ leBytes 8 m.timestamp ++ leBytes 16 m.id ++
    leBytes 4 m.checksum ++ leBytes 4 (headersBytesOpt m.headers).length ++
    headersBytesOpt m.headers ++ leBytes 4 m.length ++ m.payload

/-- Well-formedness of a header entry: the bounds the Rust types carry. -/
def HeaderEntry.wfb (h : HeaderEntry) : Bool :=
  decide (h.name.length < 2 ^ 32) && decide (h.kind < 256) &&
    decide (h.value.length < 2 ^ 32)

/-- Well-formedness of a message: the bounds the Rust types carry, a valid
state code, the length field equal to the payload length, and headers either
absent or a non-empty well-formed map. -/
def Message.wfb (m : Message) : Bool :=
  decide (m.offset < 2 ^ 64) && validStateCode m.state &&
    decide (m.timestamp < 2 ^ 64) && decide (m.id < 2 ^ 128) &&
    decide (m.checksum < 2 ^ 32) &&
    (match m.headers with
     | Option.none => true
     | some hs => !hs.isEmpty && hs.all HeaderEntry.wfb &&
         decide ((headersToBytes hs).length < 2 ^ 32)) &&
    (m.length == m.payload.length) && decide (m.payload.length < 2 ^ 32)

/-- Except-valued little-endian reader; a short buffer fails like the guarded
readers of the source (`InvalidCommand`). -/
def readLeE (w : Nat) (b : List Nat) : Except Error (Nat × List Nat) :=
  match readLe w b with
  | some r => .ok r
  | Option.none => .error .invalidCommand

/-- Except-valued `copy_to_bytes`: split off the first `n` bytes. -/
def takeE (n : Nat) (b : List Nat) : Except Error (List Nat × List Nat) :=
  if n ≤ b.length then .ok (b.take n, b.drop n) else .error .invalidCommand

/-- The per-message walk of `MessagesBatch::into_messages` (`messages_batch.rs`,
lines 145-174), factored out for one message: `offset`, `state` (checked by
`MessageState::from_code`), `timestamp`, `id`, `checksum`, `headers_len`,
optional headers, `length`, `payload`. -/
def parseOneMessage (b : List Nat) : Except Error (Message × List Nat) := do
  let (offset, b) ← readLeE 8 b
  let (stateCode, b) ← readLeE 1 b
  let state ← messageStateFromCode stateCode
  let (timestamp, b) ← readLeE 8 b
  let (id, b) ← readLeE 16 b
  let (checksum, b) ← readLeE 4 b
  let (headersLen, b) ← readLeE 4 b
  let (headersPayload, b) ← takeE headersLen b
  let headers ←
    if 0 < headersLen then
      match parseHeaders headersPayload.length headersPayload with
      | some hs => Except.ok (some hs)
      | Option.none => Except.error Error.invalidCommand
    else Except.ok Option.none
  let (len, b) ← readLeE 4 b
  let (payload, b) ← takeE len b
  Except.ok (⟨offset, state, timestamp, id, checksum, headers, len, payload⟩, b)

/-- The `while buffer.remaining() > 0` loop of `into_messages`: parse messages
until the buffer is exhausted.  Fuel bounds the recursion by the buffer length
(every message consumes at least 45 bytes). -/
def parseMessages : Nat → List Nat → Except Error (List Message)
  | _, [] => .ok []
  | 0, _ :: _ => .error .invalidCommand
  | fuel + 1, x :: b => do
    let (m, rest) ← parseOneMessage (x :: b)
    let ms ← parseMessages fuel rest
    pure (m :: ms)

/-- `METADATA_BYTES_LEN` from `server/src/streaming/batching/mod.rs`; the spec
fixes it at 17 = 8 + 4 + 4 + 1. -/
def METADATA_BYTES_LEN : Nat := 17

/-- One framed batch, from `messages_batch.rs` lines 23-31.  The payload
`messages` is the (possibly compressed) concatenation of serialized messages. -/
structure MessagesBatch where
  baseOffset : Nat
  length : Nat
  lastOffsetDelta : Nat
  attributes : Nat
  messages : List Nat
  deriving DecidableEq, Repr

/-- `MessagesBatch::get_last_offset` (`messages_batch.rs`, lines 192-194). -/
def MessagesBatch.getLastOffset (b : MessagesBatch) : Nat :=
  b.baseOffset + b.lastOffsetDelta

/-- `MessagesBatch::get_size_bytes` (`messages_batch.rs`, lines 182-184). -/
def MessagesBatch.getSizeBytes (b : MessagesBatch) : Nat :=
  METADATA_BYTES_LEN + b.messages.length

/-- `MessagesBatch::is_contained_or_overlapping_within_offset_range`
(`messages_batch.rs`, lines 178-181). -/
def MessagesBatch.isContainedOrOverlappingWithinOffsetRange
    (b : MessagesBatch) (startOffset endOffset : Nat) : Bool :=
  (decide (b.baseOffset ≤ endOffset) && decide (endOffset ≤ b.getLastOffset)) ||
    (decide (b.baseOffset ≤ startOffset) && decide (b.getLastOffset ≤ endOffset))

/-- `MessagesBatch::messages_to_batch` (`messages_batch.rs`, lines 77-121):
serialize the messages, compress when the algorithm says so and the payload is
large enough, and frame the result. -/
def MessagesBatch.messagesToBatch (baseOffset lastOffsetDelta attributes : Nat)
    (messages : List Message) : Except Error MessagesBatch := do
  let ca ← CompressionAlgorithm.fromCode (compressionCode attributes)
  let payload := (messages.map Message.asBytes).flatten
  let compressedPayload ←
    match ca with
    | CompressionAlgorithm.none => pure payload
    | CompressionAlgorithm.gzip =>
      if CompressionAlgorithm.gzip.minDataSize < payload.length then
        pure (gzCompress payload)
      else
        pure payload
  Except.ok ⟨baseOffset, METADATA_BYTES_LEN + compressedPayload.length,
    lastOffsetDelta, attributes, compressedPayload⟩

/-- `MessagesBatch::into_messages` (`messages_batch.rs`, lines 122-177):
decompress according to the attributes, then parse messages until the buffer is
exhausted. -/
def MessagesBatch.intoMessages (b : MessagesBatch) : Except Error (List Message) := do
  let ca ← CompressionAlgorithm.fromCode (compressionCode b.attributes)
  let buffer ←
    match ca with
    | CompressionAlgorithm.none => pure b.messages
    | CompressionAlgorithm.gzip => gzDecompress b.messages
  parseMessages buffer.length buffer

/-- One offset-index entry, `{ relative_offset: u32, position: u32 }`
(`segments/index.rs` is not in the provided slice; the fields are fixed by the
spec data model and by their construction in `segments/messages.rs`). -/
structure Index where
  relativeOffset : Nat
  position : Nat
  deriving DecidableEq, Repr

/-- One time-index entry, from `segments/time_index.rs`. -/
structure TimeIndex where
  relativeOffset : Nat
  timestamp : Nat
  deriving DecidableEq, Repr

/-- A bracketing pair of index entries, `IndexRange { start, end }`. -/
structure IndexRange where
  start : Index
  stop : Index
  deriving DecidableEq, Repr

/-- In-memory segment state.  The struct itself is declared in
`segments/segment.rs`, which is not in the provided slice; the fields are
modelled from the spec data model §3 and from their uses in
`segments/messages.rs`.  `sizeBytesConfig` carries `config.segment.size_bytes`
so that the segment is self-contained. -/
structure Segment where
  partitionId : Nat
  startOffset : Nat
  endOffset : Nat
  currentOffset : Nat
  currentSizeBytes : Nat
  isClosed : Bool
  indexes : Option (List Index)
  timeIndexes : Option (List TimeIndex)
  unsavedMessages : Option (List MessagesBatch)
  unsavedIndexes : List Nat
  messageExpirySecs : Option Nat
  sizeBytesConfig : Nat
  deriving DecidableEq, Repr

/-- The `SegmentStorage` interface (spec §4.1): the segment performs no raw
I/O; each operation is an explicit function that may fail.  The source reaches
it through `self.storage.segment`; the model passes it as a parameter. -/
structure SegmentStorageM where
  loadMessages : Segment → IndexRange → Except Error (List MessagesBatch)
  saveMessages : Segment → List MessagesBatch → Except Error Nat
  saveIndex : Segment → Except Error Unit

/-- Modelled from the spec §4.3: `Segment::is_full` lives in
`segments/segment.rs`, not in the provided slice; the spec defines it as
`current_size_bytes ≥ config.segment.size_bytes`, size-based only. -/
def Segment.isFull (s : Segment) : Bool :=
  s.sizeBytesConfig ≤ s.currentSizeBytes

/-- `Segment::store_offset_and_timestamp_index_for_batch`
(`segments/messages.rs`, lines 273-309).  All four match arms of the source
push the same offset-index entry when `indexes` is present (the time-index
pushes are commented out there), and the entry bytes always go to the unsaved
index buffer. -/
def Segment.storeOffsetAndTimestampIndexForBatch (s : Segment)
    (batchLastOffset : Nat) : Segment :=
  let relativeOffset := (batchLastOffset - s.startOffset) % 2 ^ 32
  let entry : Index := ⟨relativeOffset, s.currentSizeBytes⟩
  let s :=
    match s.indexes with
    | some idx => { s with indexes := some (idx ++ [entry]) }
    | Option.none => s
  { s with unsavedIndexes :=
      s.unsavedIndexes ++ leBytes 4 relativeOffset ++ leBytes 4 s.currentSizeBytes }

/-- `Segment::append_messages` (`segments/messages.rs`, lines 189-272): fail on
a closed segment, record the index entry for the batch last offset, push the
batch to the unsaved buffer and grow `current_size_bytes` by the batch size.
The source never assigns `current_offset` (only the commented-out per-message
loop did). -/
def Segment.appendMessages (s : Segment) (messages : MessagesBatch)
    (lastMessageOffset : Nat) : Except Error Segment :=
  if s.isClosed then
    Except.error (Error.segmentClosed s.startOffset s.partitionId)
  else
    let s := s.storeOffsetAndTimestampIndexForBatch lastMessageOffset
    let batchSize := messages.getSizeBytes
    Except.ok { s with
      unsavedMessages := some (s.unsavedMessages.getD [] ++ [messages]),
      currentSizeBytes := s.currentSizeBytes + batchSize }

/-- `Segment::persist_messages` (`segments/messages.rs`, lines 311-355). -/
def Segment.persistMessages (storage : SegmentStorageM) (s : Segment) :
    Except Error Segment :=
  match s.unsavedMessages with
  | Option.none => Except.ok s
  | some unsaved =>
    if unsaved.isEmpty then Except.ok s
    else do
      let _ ← storage.saveMessages s unsaved
      let _ ← storage.saveIndex s
      let s := { s with unsavedIndexes := [] }
      if s.isFull then
        Except.ok { s with endOffset := s.currentOffset, isClosed := true,
                           unsavedMessages := Option.none }
      else
        Except.ok { s with unsavedMessages := some [] }

/-- The index of the last element satisfying the predicate, or 0:
`iter().rposition(p).unwrap_or(0)`. -/
def rpositionGetDZero {α : Type} (p : α → Bool) (l : List α) : Nat :=
  match (l.enum.filter fun x => p x.2).getLast? with
  | some x => x.1
  | Option.none => 0

/-- `Segment::load_messages_from_unsaved_buffer` (`segments/messages.rs`,
lines 83-113).  The source compares batch base offsets against
segment-relative offsets while filtering decoded messages by absolute offset;
the model reproduces this as written. -/
def Segment.loadMessagesFromUnsavedBuffer (s : Segment) (offset endOffset : Nat) :
    Except Error (List Message) := do
  let relativeStartOffset := offset - s.startOffset
  let relativeEndOffset := endOffset - s.startOffset
  let unsavedMessages := s.unsavedMessages.getD []
  let sliceStart :=
    rpositionGetDZero (fun batch => decide (batch.baseOffset ≤ relativeStartOffset))
      unsavedMessages
  let batches := (unsavedMessages.drop sliceStart).filter fun batch =>
    batch.isContainedOrOverlappingWithinOffsetRange relativeStartOffset relativeEndOffset
  let msgLists ← batches.mapM MessagesBatch.intoMessages
  Except.ok (msgLists.flatten.filter fun msg =>
    decide (offset ≤ msg.offset) && decide (msg.offset ≤ endOffset))

/-- Modelled from the spec §4.3: `load_highest_lower_bound_index` lives in
`segments/segment.rs`, not in the provided slice.  Lower bracket: the greatest
entry with `relative_offset ≤ rel_start` (entries are in non-decreasing order,
so the last such entry); upper bracket: the smallest entry with
`relative_offset ≥ rel_end`, or the end of the index.  Missing index or empty
range is an error which the caller turns into an empty result. -/
def Segment.loadHighestLowerBoundIndex (s : Segment) (relStart relEnd : Nat) :
    Except Error IndexRange :=
  match s.indexes with
  | Option.none => Except.error Error.ioError
  | some idx =>
    let lower := (idx.filter fun e => decide (e.relativeOffset ≤ relStart)).getLast?
    let upper :=
      match (idx.filter fun e => decide (relEnd ≤ e.relativeOffset)).head? with
      | some u => some u
      | Option.none => idx.getLast?
    match lower, upper with
    | some lo, some hi => Except.ok ⟨lo, hi⟩
    | _, _ => Except.error Error.ioError

/-- `Segment::load_messages_from_segment_file` (`segments/messages.rs`,
lines 159-187). -/
def Segment.loadMessagesFromSegmentFile (storage : SegmentStorageM) (s : Segment)
    (indexRange : IndexRange) (startOffset endOffset : Nat) :
    Except Error (List Message) := do
  let batches ← storage.loadMessages s indexRange
  let msgLists ← batches.mapM MessagesBatch.intoMessages
  Except.ok (msgLists.flatten.filter fun msg =>
    decide (startOffset ≤ msg.offset) && decide (msg.offset ≤ endOffset))

/-- `Segment::load_messages_from_disk` (`segments/messages.rs`, lines 115-157).
The upper bound check against `current_offset` is commented out in the source
and therefore absent here too. -/
def Segment.loadMessagesFromDisk (storage : SegmentStorageM) (s : Segment)
    (startOffset endOffset : Nat) : Except Error (List Message) :=
  if startOffset > endOffset then Except.ok []
  else
    let relativeStartOffset := (startOffset - s.startOffset) % 2 ^ 32
    let relativeEndOffset := (endOffset - s.startOffset) % 2 ^ 32
    match s.loadHighestLowerBoundIndex relativeStartOffset relativeEndOffset with
    | Except.error _ => Except.ok []
    | Except.ok indexRange =>
      s.loadMessagesFromSegmentFile storage indexRange startOffset endOffset

/-- `Segment::get_messages` (`segments/messages.rs`, lines 23-59).  In the
mixed disk-and-buffer case the source binds the buffered batches and then
drops them (`messages.append` stays commented out), returning the disk
messages only; the model reproduces this as written. -/
def Segment.getMessages (storage : SegmentStorageM) (s : Segment)
    (offset count : Nat) : Except Error (List Message) :=
  if count = 0 then Except.ok []
  else
    let offset := if offset < s.startOffset then s.startOffset else offset
    let endOffset := offset + (count - 1)
    match s.unsavedMessages with
    | Option.none => s.loadMessagesFromDisk storage offset endOffset
    | some [] => s.loadMessagesFromDisk storage offset endOffset
    | some (b0 :: rest) =>
      let firstOffset := b0.baseOffset
      if endOffset < firstOffset then
        s.loadMessagesFromDisk storage offset endOffset
      else
        let lastOffset := ((b0 :: rest).getLast (List.cons_ne_nil b0 rest)).getLastOffset
        if decide (firstOffset ≤ offset) && decide (endOffset ≤ lastOffset) then
          s.loadMessagesFromUnsavedBuffer offset endOffset
        else do
          let messages ← s.loadMessagesFromDisk storage offset endOffset
          let _bufferedBatches ← s.loadMessagesFromUnsavedBuffer offset endOffset
          Except.ok messages

/-- A minimal message with the given offset, used to instantiate segment
scenarios. -/
def c1msg (i : Nat) : Message := ⟨i, 1, 0, 0, 0, Option.none, 0, []⟩

/-- The serialized payload of `n` consecutive minimal messages starting at
`base`. -/
def c1payload (base n : Nat) : List Nat :=
  ((List.range n).map fun i => (c1msg (base + i)).asBytes).flatten

/-- Uncompressed batch holding messages 0..9, as stored on disk in scenario E. -/
def c1batchDisk : MessagesBatch := ⟨0, 467, 9, 0, c1payload 0 10⟩

/-- Uncompressed unsaved batch holding messages 10..14. -/
def c1batchA : MessagesBatch := ⟨10, 242, 4, 0, c1payload 10 5⟩

/-- Uncompressed unsaved batch holding messages 15..19. -/
def c1batchB : MessagesBatch := ⟨15, 242, 4, 0, c1payload 15 5⟩

/-- Scenario E segment: start offset 0, unsaved batches [10..14] and [15..19],
one index entry pointing at the head of the log file. -/
def c1seg : Segment :=
  ⟨1, 0, 0, 19, 951, false, some [⟨0, 0⟩], Option.none,
    some [c1batchA, c1batchB], [], Option.none, 1000000⟩

/-- Scenario E storage: the log file holds the single batch with messages
0..9. -/
def c1storage : SegmentStorageM :=
  ⟨fun _ _ => .ok [c1batchDisk], fun _ _ => .ok 0, fun _ => .ok ()⟩

/-- An open, empty segment with start offset 0. -/
def c2seg : Segment :=
  ⟨1, 0, 0, 0, 0, false, some [], Option.none, Option.none, [], Option.none, 1000⟩

/-- An empty-payload batch whose size is exactly the 17 metadata bytes. -/
def c2batch : MessagesBatch := ⟨0, 17, 4, 0, []⟩

/-- A non-full segment with one unsaved batch, for the C3 witness. -/
def c3seg : Segment :=
  ⟨1, 0, 0, 4, 17, false, some [], Option.none, some [c2batch], [1, 2, 3, 4, 5, 6, 7, 8],
    Option.none, 1000⟩

/-- The slice of `SystemConfig` the embedded operations read
(`server/src/configs/system.rs` is not in the provided slice): the retention
policy defaults, in seconds and bytes, and the configured segment size. -/
structure SystemConfig where
  messageExpiryDefault : Nat
  maxTopicSizeDefault : Nat
  segmentSizeBytes : Nat
  deriving DecidableEq, Repr

/-- The topic fields the claims read, from `streaming/topics/topic.rs`
lines 13-30.  Paths, storage handles, consumer groups and the partition map
are owned resources no claim inspects; the partitions are carried as their
count. -/
structure Topic where
  streamId : Nat
  topicId : Nat
  name : List Nat
  partitionsCount : Nat
  messageExpirySecs : Option Nat
  maxTopicSizeBytes : Option Nat
  replicationFactor : Nat
  deriving DecidableEq, Repr

/-- `Topic::create` (`streaming/topics/topic.rs`, lines 43-94), restricted to
the fields the claims read.  The two nested matches are verbatim from the
source: an explicit `Some 0` becomes `None`, an absent value falls back to the
configured retention default, which again becomes `None` when it is zero.
`add_partitions` lives outside the provided slice and the spec assigns it no
failure mode, so it is modelled as always succeeding. -/
def Topic.create (config : SystemConfig) (streamId topicId : Nat) (name : List Nat)
    (partitionsCount : Nat) (messageExpirySecs : Option Nat)
    (maxTopicSizeBytes : Option Nat) (replicationFactor : Nat) :
    Except Error Topic :=
  let expiryVal : Option Nat :=
    match messageExpirySecs with
    | some 0 => Option.none
    | some expiry => some expiry
    | Option.none =>
      match config.messageExpiryDefault with
      | 0 => Option.none
      | expiry => some expiry
  let maxSizeVal : Option Nat :=
    match maxTopicSizeBytes with
    | some 0 => Option.none
    | some size => some size
    | Option.none =>
      match config.maxTopicSizeDefault with
      | 0 => Option.none
      | size => some size
  Except.ok ⟨streamId, topicId, name, partitionsCount, expiryVal, maxSizeVal,
    replicationFactor⟩

/-- Association-list lookup, modelling `HashMap::get`. -/
def lookupA {κ ω : Type} [DecidableEq κ] : List (κ × ω) → κ → Option ω
  | [], _ => Option.none
  | p :: t, k => if p.1 = k then some p.2 else lookupA t k

/-- Association-list insert, modelling `HashMap::insert`: replace the entry if
the key is present, otherwise add it. -/
def insertA {κ ω : Type} [DecidableEq κ] : List (κ × ω) → κ → ω → List (κ × ω)
  | [], k, v => [(k, v)]
  | p :: t, k, v => if p.1 = k then (k, v) :: t else p :: insertA t k v

/-- Association-list removal, modelling `HashMap::remove` (keys are unique in
every reachable map, so removing the first match is removal of the match). -/
def removeA {κ ω : Type} [DecidableEq κ] : List (κ × ω) → κ → List (κ × ω)
  | [], _ => []
  | p :: t, k => if p.1 = k then t else p :: removeA t k

/-- Modelled from the spec §3: `Identifier` (`iggy/src/identifier.rs` is not in
the provided slice) is either a numeric id or a byte-string name. -/
inductive Identifier where
  | numeric (value : Nat)
  | named (value : List Nat)
  deriving DecidableEq, Repr

/-- Modelled from the spec: `text::to_lowercase_non_whitespace` normalizes a
name to its lowercased-and-dashed form; ASCII uppercase is lowercased and a
space becomes a dash. -/
def toLowercaseNonWhitespace (name : List Nat) : List Nat :=
  name.map fun b => if 65 ≤ b ∧ b ≤ 90 then b + 32 else if b = 32 then 45 else b

/-- The stream fields the claims read, from the spec data model §3 and the
uses in `streams/topics.rs` (`streams/stream.rs` is not in the provided
slice).  `topics` is `HashMap<u32, Topic>`, `topicsIds` is the
name-to-id map `topics_ids: HashMap<String, u32>`. -/
structure Stream where
  streamId : Nat
  name : List Nat
  topics : List (Nat × Topic)
  topicsIds : List (List Nat × Nat)
  config : SystemConfig
  deriving DecidableEq, Repr

/-- `Stream::get_topic` dispatch plus the key it resolved
(`streams/topics.rs`, lines 111-141): numeric identifiers go through
`get_topic_by_id`, named ones through `get_topic_by_name`, which first maps
the name and then delegates to `get_topic_by_id`. -/
def Stream.getTopicEntry (s : Stream) (identifier : Identifier) :
    Except Error (Nat × Topic) :=
  match identifier with
  | .numeric id =>
    match lookupA s.topics id with
    | some t => Except.ok (id, t)
    | Option.none => Except.error (Error.topicIdNotFound id s.streamId)
  | .named nm =>
    match lookupA s.topicsIds nm with
    | some id =>
      match lookupA s.topics id with
      | some t => Except.ok (id, t)
      | Option.none => Except.error (Error.topicIdNotFound id s.streamId)
    | Option.none => Except.error (Error.topicNameNotFound nm s.streamId)

/-- `Stream::get_topic` (`streams/topics.rs`, lines 111-116). -/
def Stream.getTopic (s : Stream) (identifier : Identifier) : Except Error Topic :=
  (s.getTopicEntry identifier).map Prod.snd

/-- `Stream::create_topic` (`streams/topics.rs`, lines 13-50): reject a
duplicate id, normalize the name, reject a duplicate name, build and persist
the topic, then insert into both maps.  `topic.persist()` goes through the
storage collaborator and is passed in as `persist`.  The source only has a
TODO for checking `max_topic_size_bytes` against the configured segment size —
no such check is performed. -/
def Stream.createTopic (persist : Topic → Except Error Unit) (s : Stream)
    (id : Nat) (name : List Nat) (partitionsCount : Nat)
    (messageExpirySecs : Option Nat) (maxTopicSizeBytes : Option Nat)
    (replicationFactor : Nat) : Stream × Except Error Unit :=
  if (lookupA s.topics id).isSome then
    (s, Except.error (Error.topicIdAlreadyExists id s.streamId))
  else
    let name := toLowercaseNonWhitespace name
    if (lookupA s.topicsIds name).isSome then
      (s, Except.error (Error.topicNameAlreadyExists name s.streamId))
    else
      match Topic.create s.config s.streamId id name partitionsCount
          messageExpirySecs maxTopicSizeBytes replicationFactor with
      | Except.error e => (s, Except.error e)
      | Except.ok topic =>
        match persist topic with
        | Except.error e => (s, Except.error e)
        | Except.ok _ =>
          ({ s with topicsIds := insertA s.topicsIds name id,
                    topics := insertA s.topics id topic }, Except.ok ())

/-- `Stream::update_topic` (`streams/topics.rs`, lines 52-105), step by step:
resolve the topic id, reject a rename onto a name owned by another topic,
fetch the old name, rewrite the name-to-id map, then re-fetch the topic
through the ORIGINAL identifier (`get_topic_mut(id)`) to rewrite its fields —
exactly as the source does, including the early `?` return after the map has
already been rewritten when that re-fetch fails. -/
def Stream.updateTopic (persist : Topic → Except Error Unit) (s : Stream)
    (id : Identifier) (name : List Nat) (messageExpirySecs : Option Nat)
    (maxTopicSizeBytes : Option Nat) (replicationFactor : Nat) :
    Stream × Except Error Unit :=
  match s.getTopic id with
  | Except.error e => (s, Except.error e)
  | Except.ok t0 =>
    let topicId := t0.topicId
    let updatedName := toLowercaseNonWhitespace name
    let clash :=
      match lookupA s.topicsIds updatedName with
      | some topicIdByName => decide (topicIdByName ≠ topicId)
      | Option.none => false
    if clash then
      (s, Except.error (Error.topicNameAlreadyExists updatedName s.streamId))
    else
      match s.getTopic id with
      | Except.error e => (s, Except.error e)
      | Except.ok t1 =>
        let oldTopicName := t1.name
        let newIds := insertA (removeA s.topicsIds oldTopicName) updatedName topicId
        let s1 := { s with topicsIds := newIds }
        match s1.getTopicEntry id with
        | Except.error e => (s1, Except.error e)
        | Except.ok (key, t2) =>
          let topic := { t2 with name := updatedName,
                                 messageExpirySecs := messageExpirySecs,
                                 maxTopicSizeBytes := maxTopicSizeBytes,
                                 replicationFactor := replicationFactor }
          let s2 := { s1 with topics := insertA s1.topics key topic }
          match persist topic with
          | Except.error e => (s2, Except.error e)
          | Except.ok _ => (s2, Except.ok ())

/-- `Stream::delete_topic` (`streams/topics.rs`, lines 161-177): resolve the
topic, run the storage delete (`topic.delete()`, passed in as `deleteOp`),
fail with `CannotDeleteTopic` leaving the maps untouched when it errors, and
otherwise remove the topic by its `topic_id` field and its recorded name from
the two maps.  The source unwraps the removal; the model totalizes the unwrap
with the already-fetched topic. -/
def Stream.deleteTopic (deleteOp : Topic → Except Error Unit) (s : Stream)
    (id : Identifier) : Stream × Except Error Topic :=
  match s.getTopicEntry id with
  | Except.error e => (s, Except.error e)
  | Except.ok (_, topic) =>
    let topicId := topic.topicId
    let topicName := topic.name
    match deleteOp topic with
    | Except.error _ =>
      (s, Except.error (Error.cannotDeleteTopic topic.topicId s.streamId))
    | Except.ok _ =>
      let removedTopic := (lookupA s.topics topicId).getD topic
      ({ s with topics := removeA s.topics topicId,
                topicsIds := removeA s.topicsIds topicName },
       Except.ok removedTopic)

/-- `MAX_NAME_LENGTH` from `iggy/src/topics/mod.rs` (not in the provided
slice; the spec fixes names at 1-255 bytes). -/
def MAX_NAME_LENGTH : Nat := 255

/-- `MAX_PARTITIONS_COUNT` from `iggy/src/topics/mod.rs` (not in the provided
slice; the spec fixes the maximum at 1000). -/
def MAX_PARTITIONS_COUNT : Nat := 1000

/-- Modelled from the spec: `text::is_resource_name_valid`
(`iggy/src/utils/text.rs` is not in the provided slice); a resource name may
hold ASCII lowercase letters, digits, dots, dashes and underscores. -/
def isResourceNameValid (name : List Nat) : Bool :=
  name.all fun b =>
    (decide (97 ≤ b) && decide (b ≤ 122)) || (decide (48 ≤ b) && decide (b ≤ 57)) ||
      b == 46 || b == 45 || b == 95

/-- The `CreateTopic` admin command, from `iggy/src/topics/create_topic.rs`
lines 23-40.  The name is carried as its byte sequence. -/
structure CreateTopic where
  streamId : Identifier
  topicId : Nat
  partitionsCount : Nat
  messageExpirySecs : Option Nat
  maxTopicSizeBytes : Option Nat
  replicationFactor : Nat
  name : List Nat
  deriving DecidableEq, Repr

/-- `CreateTopic::validate` (`create_topic.rs`, lines 58-82): id non-zero,
name non-empty, at most 255 bytes and of the resource charset, partitions
count at most the maximum, replication factor non-zero.  Note that
`max_topic_size_bytes` is NOT checked against anything here. -/
def CreateTopic.validate (c : CreateTopic) : Except Error Unit :=
  if c.topicId = 0 then .error .invalidTopicId
  else if c.name.isEmpty || decide (MAX_NAME_LENGTH < c.name.length) then
    .error .invalidTopicName
  else if !isResourceNameValid c.name then .error .invalidTopicName
  else if !decide (c.partitionsCount ≤ MAX_PARTITIONS_COUNT) then
    .error .tooManyPartitions
  else if c.replicationFactor = 0 then .error .invalidReplicationFactor
  else .ok ()

/-- A one-topic stream for the C9 witness: topic 2 named "a". -/
def c9s : Stream :=
  ⟨1, [115], [(2, ⟨1, 2, [97], 1, Option.none, Option.none, 1⟩)], [([97], 2)],
    ⟨0, 0, 1000⟩⟩

/-- An empty stream whose configuration sets the segment size to 1000 bytes. -/
def c4s : Stream := ⟨1, [115], [], [], ⟨0, 0, 1000⟩⟩

/-- An empty stream with a zeroed retention configuration, the starting point
of the C8 failing sequence. -/
def c8s0 : Stream := ⟨1, [115], [], [], ⟨0, 0, 1000⟩⟩

/-- State after `create_topic(1, "a", ...)` on `c8s0`. -/
def c8s1 : Stream :=
  (Stream.createTopic (fun _ => .ok ()) c8s0 1 [97] 1 Option.none Option.none 1).1

/-- State after `update_topic(named "a", name := "b", ...)` on `c8s1` — the
call fails only after rewriting the name-to-id map. -/
def c8s2 : Stream :=
  (Stream.updateTopic (fun _ => .ok ()) c8s1 (Identifier.named [97]) [98]
    Option.none Option.none 1).1

/-- State after `delete_topic(1)` on `c8s2`. -/
def c8s3 : Stream :=
  (Stream.deleteTopic (fun _ => .ok ()) c8s2 (Identifier.numeric 1)).1

/-- Modelled from the spec: a client session (`streaming/session.rs` is not in
the provided slice) carries the authenticated user id and whether the client
has authenticated. -/
structure Session where
  userId : Nat
  authenticated : Bool
  deriving DecidableEq, Repr

/-- Modelled from the spec §4.7: `System::ensure_authenticated`
(`systems/system.rs` is not in the provided slice) rejects a session that has
not authenticated with `Unauthenticated`. -/
def ensureAuthenticated (session : Session) : Except Error Unit :=
  if session.authenticated then .ok () else .error .unauthenticated

/-- The root aggregate, from the spec data model and the uses in
`systems/topics.rs` (`systems/system.rs` is not in the provided slice).  The
permissioner methods consulted by the topic operations are carried as
function fields, since `permissioner` rule code is outside the slice; each
returns a typed error which is propagated. -/
structure System where
  streams : List (Nat × Stream)
  streamsIds : List (List Nat × Nat)
  permGetTopic : Nat → Nat → Nat → Except Error Unit
  permGetTopics : Nat → Nat → Except Error Unit
  permCreateTopic : Nat → Nat → Except Error Unit
  permUpdateTopic : Nat → Nat → Nat → Except Error Unit
  permDeleteTopic : Nat → Nat → Nat → Except Error Unit
  permPurgeTopic : Nat → Nat → Nat → Except Error Unit

/-- Modelled from the spec: `System::get_stream` dispatches on the identifier
kind like `Stream::get_topic` does for topics, and also returns the map key
for mutation. -/
def System.getStreamEntry (sys : System) (identifier : Identifier) :
    Except Error (Nat × Stream) :=
  match identifier with
  | .numeric id =>
    match lookupA sys.streams id with
    | some s => Except.ok (id, s)
    | Option.none => Except.error Error.invalidCommand
  | .named nm =>
    match lookupA sys.streamsIds nm with
    | some id =>
      match lookupA sys.streams id with
      | some s => Except.ok (id, s)
      | Option.none => Except.error Error.invalidCommand
    | Option.none => Except.error Error.invalidCommand

/-- `System::get_stream`. -/
def System.getStream (sys : System) (identifier : Identifier) :
    Except Error Stream :=
  (sys.getStreamEntry identifier).map Prod.snd

/-- `System::find_topic` (`systems/topics.rs`, lines 8-20): authenticate,
resolve the stream and topic, then consult the permissioner. -/
def System.findTopic (sys : System) (session : Session)
    (streamId topicId : Identifier) : Except Error Topic := do
  let _ ← ensureAuthenticated session
  let stream ← sys.getStream streamId
  let topic ← stream.getTopic topicId
  let _ ← sys.permGetTopic session.userId stream.streamId topic.topicId
  Except.ok topic

/-- `System::find_topics` (`systems/topics.rs`, lines 22-32). -/
def System.findTopics (sys : System) (session : Session)
    (streamId : Identifier) : Except Error (List Topic) := do
  let _ ← ensureAuthenticated session
  let stream ← sys.getStream streamId
  let _ ← sys.permGetTopics session.userId stream.streamId
  Except.ok (stream.topics.map Prod.snd)

/-- `System::create_topic` (`systems/topics.rs`, lines 34-67); the metrics
counters are external collaborators and are not modelled. -/
def System.createTopic (persist : Topic → Except Error Unit) (sys : System)
    (session : Session) (streamId : Identifier) (topicId : Nat)
    (name : List Nat) (partitionsCount : Nat) (messageExpirySecs : Option Nat)
    (maxTopicSizeBytes : Option Nat) (replicationFactor : Nat) :
    System × Except Error Unit :=
  match ensureAuthenticated session with
  | Except.error e => (sys, Except.error e)
  | Except.ok _ =>
    match sys.getStreamEntry streamId with
    | Except.error e => (sys, Except.error e)
    | Except.ok (key, stream) =>
      match sys.permCreateTopic session.userId stream.streamId with
      | Except.error e => (sys, Except.error e)
      | Except.ok _ =>
        let (streamNew, r) := Stream.createTopic persist stream topicId name
          partitionsCount messageExpirySecs maxTopicSizeBytes replicationFactor
        ({ sys with streams := insertA sys.streams key streamNew }, r)

/-- `System::update_topic` (`systems/topics.rs`, lines 69-102). -/
def System.updateTopic (persist : Topic → Except Error Unit) (sys : System)
    (session : Session) (streamId topicId : Identifier) (name : List Nat)
    (messageExpirySecs : Option Nat) (maxTopicSizeBytes : Option Nat)
    (replicationFactor : Nat) : System × Except Error Unit :=
  match ensureAuthenticated session with
  | Except.error e => (sys, Except.error e)
  | Except.ok _ =>
    match sys.getStreamEntry streamId with
    | Except.error e => (sys, Except.error e)
    | Except.ok (key, stream) =>
      match stream.getTopic topicId with
      | Except.error e => (sys, Except.error e)
      | Except.ok topic =>
        match sys.permUpdateTopic session.userId stream.streamId topic.topicId with
        | Except.error e => (sys, Except.error e)
        | Except.ok _ =>
          let (streamNew, r) := Stream.updateTopic persist stream topicId name
            messageExpirySecs maxTopicSizeBytes replicationFactor
          ({ sys with streams := insertA sys.streams key streamNew }, r)

/-- `System::delete_topic` (`systems/topics.rs`, lines 104-136); metrics and
the client manager are external collaborators and are not modelled. -/
def System.deleteTopic (deleteOp : Topic → Except Error Unit) (sys : System)
    (session : Session) (streamId topicId : Identifier) :
    System × Except Error Unit :=
  match ensureAuthenticated session with
  | Except.error e => (sys, Except.error e)
  | Except.ok _ =>
    match sys.getStreamEntry streamId with
    | Except.error e => (sys, Except.error e)
    | Except.ok (key, stream) =>
      match stream.getTopic topicId with
      | Except.error e => (sys, Except.error e)
      | Except.ok topic =>
        match sys.permDeleteTopic session.userId stream.streamId topic.topicId with
        | Except.error e => (sys, Except.error e)
        | Except.ok _ =>
          let (streamNew, r) := Stream.deleteTopic deleteOp stream topicId
          ({ sys with streams := insertA sys.streams key streamNew },
           r.map fun _ => ())

/-- `System::purge_topic` (`systems/topics.rs`, lines 138-149): resolve the
stream and the topic, consult the permissioner, purge.  Unlike the five other
public topic operations, the source has NO `ensure_authenticated` call here;
the model reproduces that. -/
def System.purgeTopic (purge : Topic → Except Error Unit) (sys : System)
    (session : Session) (streamId topicId : Identifier) :
    Except Error Unit := do
  let stream ← sys.getStream streamId
  let topic ← stream.getTopic topicId
  let _ ← sys.permPurgeTopic session.userId stream.streamId topic.topicId
  purge topic

/-- A system with one stream (id 1, holding topic 2 named "a") whose
permissioner denies everything, and an unauthenticated session; used to
separate the authentication check from the permission check. -/
def c5sys : System :=
  ⟨[(1, c9s)], [([115], 1)],
    fun _ _ _ => .error .permissionDenied,
    fun _ _ => .error .permissionDenied,
    fun _ _ => .error .permissionDenied,
    fun _ _ _ => .error .permissionDenied,
    fun _ _ _ => .error .permissionDenied,
    fun _ _ _ => .error .permissionDenied⟩

/-- The unauthenticated session of the C5 failing input. -/
def c5session : Session := ⟨42, false⟩

/-- Decimal rendering of a natural number as ASCII digit bytes, modelling the
`Display` formatting of the unsigned integer fields. -/
def natToDec (n : Nat) : List Nat :=
  if h : n < 10 then [48 + n]
  else natToDec (n / 10) ++ [48 + n % 10]
  decreasing_by exact Nat.div_lt_self (by omega) (by omega)

/-- Accumulating decimal parser over ASCII digit bytes. -/
def decToNatAux : List Nat → Nat → Option Nat
  | [], acc => some acc
  | d :: t, acc =>
    if 48 ≤ d ∧ d ≤ 57 then decToNatAux t (acc * 10 + (d - 48)) else Option.none

/-- Decimal parse of a byte string: digits only, non-empty. -/
def decToNat? (l : List Nat) : Option Nat :=
  match l with
  | [] => Option.none
  | _ :: _ => decToNatAux l 0

/-- Modelled from the Rust `str::parse::<uN>` used by the textual decoders:
digits only, non-empty, value below the bound of the target width. -/
def parseUInt? (bound : Nat) (l : List Nat) : Option Nat :=
  match decToNat? l with
  | some n => if n < bound then some n else Option.none
  | Option.none => Option.none

/-- Except-valued `str::parse` whose failure propagates as a command error. -/
def parseUIntE (bound : Nat) (l : List Nat) : Except Error Nat :=
  match parseUInt? bound l with
  | some n => .ok n
  | Option.none => .error .invalidCommand

/-- `input.split(124)` on byte strings, 124 being the pipe separator of the
textual command forms. -/
def splitOnPipe : List Nat → List (List Nat)
  | [] => [[]]
  | x :: t =>
    let r := splitOnPipe t
    if x = 124 then [] :: r
    else (x :: r.headD []) :: r.tail

/-- Modelled from the spec §6: `Identifier` binary layout
`kind:u8 | length:u8 | value`, numeric kind 1 with a 4-byte little-endian
value, named kind 2 with the name bytes. -/
def Identifier.asBytes : Identifier → List Nat
  | .numeric v => 1 :: 4 :: leBytes 4 v
  | .named s => 2 :: (s.length % 256) :: s

/-- `Identifier::get_size_bytes`: 2 header bytes plus the value. -/
def Identifier.getSizeBytes : Identifier → Nat
  | .numeric _ => 6
  | .named s => 2 + s.length

/-- Modelled from the spec §6: decoding an `Identifier` from the front of a
buffer; the kind byte selects the variant, numeric values are 4 bytes, named
values are 1-255 bytes. -/
def Identifier.fromBytes (b : List Nat) : Except Error Identifier :=
  match b with
  | kind :: len :: rest =>
    if kind = 1 then
      if len = 4 ∧ 4 ≤ rest.length then .ok (.numeric (leVal (rest.take 4)))
      else .error .invalidIdentifier
    else if kind = 2 then
      if 1 ≤ len ∧ len ≤ 255 ∧ len ≤ rest.length then .ok (.named (rest.take len))
      else .error .invalidIdentifier
    else .error .invalidIdentifier
  | _ => .error .invalidIdentifier

/-- Identifier well-formedness: the bounds the Rust types and the validating
constructors carry (numeric u32; named 1-255 bytes). -/
def Identifier.wfb : Identifier → Bool
  | .numeric v => decide (v < 2 ^ 32)
  | .named s =>
    decide (1 ≤ s.length) && decide (s.length ≤ 255) && s.all fun b => decide (b < 256)

/-- `Display` for `Identifier`: the numeric value in decimal, or the name. -/
def Identifier.displayBytes : Identifier → List Nat
  | .numeric v => natToDec v
  | .named s => s

/-- Modelled from the spec: `FromStr` for `Identifier` first tries a `u32`
parse and falls back to a named identifier. -/
def Identifier.fromStrBytes (b : List Nat) : Except Error Identifier :=
  match parseUInt? (2 ^ 32) b with
  | some v => .ok (.numeric v)
  | Option.none =>
    if 1 ≤ b.length ∧ b.length ≤ 255 then .ok (.named b) else .error .invalidIdentifier

/-- A named identifier survives the textual round trip only when its name
holds no pipe byte and does not itself parse as a `u32`; numeric identifiers
always do. -/
def Identifier.textSafe : Identifier → Bool
  | .numeric _ => true
  | .named s => decide (¬ 124 ∈ s) && (parseUInt? (2 ^ 32) s).isNone

/-- `BytesSerializable::as_bytes` for `CreateTopic` (`create_topic.rs`,
lines 126-145): stream identifier, then little-endian `topic_id`,
`partitions_count`, `message_expiry_secs` (0 encodes `None`),
`max_topic_size_bytes` (0 encodes `None`), `replication_factor`, name length
and name bytes. -/
def CreateTopic.asBytes (c : CreateTopic) : List Nat :=
  c.streamId.asBytes ++ leBytes 4 c.topicId ++ leBytes 4 c.partitionsCount ++
    leBytes 4 (c.messageExpirySecs.getD 0) ++ leBytes 8 (c.maxTopicSizeBytes.getD 0) ++
    [c.replicationFactor % 256] ++ [c.name.length % 256] ++ c.name

/-- `BytesSerializable::from_bytes` for `CreateTopic` (`create_topic.rs`,
lines 147-184): length guard, identifier, the fixed-offset little-endian
walk, zero mapped to `None` for the two optional fields, then `validate`. -/
def CreateTopic.fromBytes (b : List Nat) : Except Error CreateTopic :=
  if b.length < 18 then .error .invalidCommand
  else
    match Identifier.fromBytes b with
    | .error e => .error e
    | .ok streamId => do
      let rest := b.drop streamId.getSizeBytes
      let (topicId, rest) ← readLeE 4 rest
      let (partitionsCount, rest) ← readLeE 4 rest
      let (expiryRaw, rest) ← readLeE 4 rest
      let messageExpirySecs :=
        match expiryRaw with
        | 0 => Option.none
        | v => some v
      let (maxSizeRaw, rest) ← readLeE 8 rest
      let maxTopicSizeBytes :=
        match maxSizeRaw with
        | 0 => Option.none
        | v => some v
      match rest with
      | replicationFactor :: nameLength :: rest => do
        let (name, _) ← takeE nameLength rest
        let command : CreateTopic := ⟨streamId, topicId, partitionsCount,
          messageExpirySecs, maxTopicSizeBytes, replicationFactor, name⟩
        let _ ← command.validate
        Except.ok command
      | _ => .error .invalidCommand

/-- `Display` for `CreateTopic` (`create_topic.rs`, lines 187-201): the seven
pipe-separated fields, the optional fields rendered as their value or 0. -/
def CreateTopic.toStringBytes (c : CreateTopic) : List Nat :=
  c.streamId.displayBytes ++ 124 :: natToDec c.topicId ++
    124 :: natToDec c.partitionsCount ++
    124 :: natToDec (c.messageExpirySecs.getD 0) ++
    124 :: natToDec (c.maxTopicSizeBytes.getD 0) ++
    124 :: natToDec c.replicationFactor ++ 124 :: c.name

/-- `FromStr` for `CreateTopic` (`create_topic.rs`, lines 84-123): split on
the pipe, exactly seven fields, numeric parses (`u32`, `u64`, `u8`), the two
optional fields parsed with `.ok()` (a failed or zero parse becomes `None`),
then `validate`. -/
def CreateTopic.fromStrBytes (input : List Nat) : Except Error CreateTopic :=
  let parts := splitOnPipe input
  if parts.length ≠ 7 then .error .invalidCommand
  else do
    let streamId ← Identifier.fromStrBytes (parts.getD 0 [])
    let topicId ← parseUIntE (2 ^ 32) (parts.getD 1 [])
    let partitionsCount ← parseUIntE (2 ^ 32) (parts.getD 2 [])
    let messageExpirySecs :=
      match parseUInt? (2 ^ 32) (parts.getD 3 []) with
      | some 0 => Option.none
      | some v => some v
      | Option.none => Option.none
    let maxTopicSizeBytes :=
      match parseUInt? (2 ^ 64) (parts.getD 4 []) with
      | some 0 => Option.none
      | some v => some v
      | Option.none => Option.none
    let replicationFactor ← parseUIntE 256 (parts.getD 5 [])
    let name := parts.getD 6 []
    let command : CreateTopic := ⟨streamId, topicId, partitionsCount,
      messageExpirySecs, maxTopicSizeBytes, replicationFactor, name⟩
    let _ ← command.validate
    Except.ok command

/-- Well-formedness of a `CreateTopic` value: the bounds the Rust field types
carry. -/
def CreateTopic.wfb (c : CreateTopic) : Bool :=
  c.streamId.wfb && decide (c.topicId < 2 ^ 32) && decide (c.partitionsCount < 2 ^ 32) &&
    (match c.messageExpirySecs with
     | some v => decide (v < 2 ^ 32)
     | Option.none => true) &&
    (match c.maxTopicSizeBytes with
     | some v => decide (v < 2 ^ 64)
     | Option.none => true) &&
    decide (c.replicationFactor < 256) && c.name.all fun b => decide (b < 256)

theorem length_leBytes (w n : Nat) : (leBytes w n).length = w := by
  induction w generalizing n with
  | zero => rfl
  | succ w ih => simp [leBytes, ih]

theorem leVal_leBytes (w n : Nat) : leVal (leBytes w n) = n % 256 ^ w := by
  induction w generalizing n with
  | zero => simp [leBytes, leVal, Nat.mod_one]
  | succ w ih =>
    have h : (256 : Nat) ^ (w + 1) = 256 * 256 ^ w := by ring
    simp [leBytes, leVal, ih, h, Nat.mod_mul]

theorem readLe_append (w n : Nat) (r : List Nat) (h : n < 256 ^ w) :
    readLe w (leBytes w n ++ r) = some (n, r) := by
  have hl : (leBytes w n).length = w := length_leBytes w n
  have ht : (leBytes w n ++ r).take w = leBytes w n := by
    have t := List.take_left (leBytes w n) r
    rw [hl] at t; exact t
  have hd : (leBytes w n ++ r).drop w = r := by
    have t := List.drop_left (leBytes w n) r
    rw [hl] at t; exact t
  simp [readLe, List.length_append, hl, ht, hd, leVal_leBytes, Nat.mod_eq_of_lt h]

theorem leBytes_all_lt (w n : Nat) : ∀ b ∈ leBytes w n, b < 256 := by
  induction w generalizing n with
  | zero => intro b hb; simp [leBytes] at hb
  | succ w ih =>
    intro b hb
    simp [leBytes] at hb
    rcases hb with hb | hb
    · omega
    · exact ih _ _ hb

theorem exceptBind_ok {ε α β : Type} (a : α) (f : α → Except ε β) :
    (Except.ok a : Except ε α) >>= f = f a := rfl

theorem exceptBind_error {ε α β : Type} (e : ε) (f : α → Except ε β) :
    (Except.error e : Except ε α) >>= f = Except.error e := rfl

theorem exceptPure_eq {ε α : Type} (a : α) : (pure a : Except ε α) = Except.ok a := rfl

theorem exceptBindF_ok {ε α β : Type} (a : α) (f : α → Except ε β) :
    Except.bind (Except.ok a) f = f a := rfl

theorem exceptBindF_error {ε α β : Type} (e : ε) (f : α → Except ε β) :
    Except.bind (Except.error e : Except ε α) f = Except.error e := rfl

theorem take_len_append {α : Type} (a b : List α) : (a ++ b).take a.length = a :=
  List.take_left a b

theorem drop_len_append {α : Type} (a b : List α) : (a ++ b).drop a.length = b :=
  List.drop_left a b

theorem readLeE_append (w n : Nat) (r : List Nat) (h : n < 256 ^ w) :
    readLeE w (leBytes w n ++ r) = .ok (n, r) := by
  simp [readLeE, readLe_append w n r h]

theorem readLeE_one (s : Nat) (r : List Nat) : readLeE 1 (s :: r) = .ok (s, r) := by
  simp [readLeE, readLe, leVal]

theorem takeE_append (a b : List Nat) : takeE a.length (a ++ b) = .ok (a, b) := by
  simp [takeE, List.length_append, take_len_append, drop_len_append]

theorem length_headerEntry_toBytes (h : HeaderEntry) :
    h.toBytes.length = 9 + h.name.length + h.value.length := by
  simp [HeaderEntry.toBytes, length_leBytes]
  omega

theorem length_headersToBytes_ge (hs : List HeaderEntry) :
    hs.length ≤ (headersToBytes hs).length := by
  induction hs with
  | nil => simp [headersToBytes]
  | cons h t ih =>
    simp [headersToBytes, length_headerEntry_toBytes] at *
    omega

theorem length_headersToBytes_pos (hs : List HeaderEntry) (h : hs ≠ []) :
    0 < (headersToBytes hs).length := by
  have := length_headersToBytes_ge hs
  cases hs with
  | nil => exact absurd rfl h
  | cons a t => simp at this ⊢; omega

theorem takeO_append (a b : List Nat) : takeO a.length (a ++ b) = some (a, b) := by
  simp [takeO, List.length_append, take_len_append, drop_len_append]

theorem parseHeaders_cons_eq (fuel : Nat) (b : List Nat) (hb : b ≠ []) :
    parseHeaders (fuel + 1) b = (do
      let (nameLen, b) ← readLe 4 b
      let (name, b) ← takeO nameLen b
      match b with
      | [] => Option.none
      | kind :: b => do
        let (valueLen, b) ← readLe 4 b
        let (value, b) ← takeO valueLen b
        let rest ← parseHeaders fuel b
        some (⟨name, kind, value⟩ :: rest)) := by
  cases b with
  | nil => exact absurd rfl hb
  | cons x xs => rfl

theorem parseHeaders_roundtrip (hs : List HeaderEntry) (hwf : hs.all HeaderEntry.wfb = true) :
    ∀ fuel, hs.length ≤ fuel → parseHeaders fuel (headersToBytes hs) = some hs := by
  induction hs with
  | nil => intro fuel _; cases fuel <;> rfl
  | cons h t ih =>
    intro fuel hf
    simp only [List.all_cons, Bool.and_eq_true] at hwf
    obtain ⟨hwh, hwt⟩ := hwf
    cases fuel with
    | zero => simp at hf
    | succ f =>
      simp only [HeaderEntry.wfb, Bool.and_eq_true, decide_eq_true_eq] at hwh
      obtain ⟨⟨hn, hk⟩, hv⟩ := hwh
      have hb : headersToBytes (h :: t) ≠ [] := by
        have hp := length_headersToBytes_pos (h :: t) (by simp)
        intro e; rw [e] at hp; simp at hp
      rw [parseHeaders_cons_eq f _ hb]
      have hexp : headersToBytes (h :: t)
          = leBytes 4 h.name.length ++ (h.name ++ (h.kind ::
              (leBytes 4 h.value.length ++ (h.value ++ headersToBytes t)))) := by
        simp [headersToBytes, HeaderEntry.toBytes, Nat.mod_eq_of_lt hk, List.append_assoc]
      rw [hexp]
      have hfl : t.length ≤ f := by simp only [List.length_cons] at hf; omega
      simp [readLe_append 4 _ _ hn, readLe_append 4 _ _ hv, takeO_append,
        ih hwt f hfl]

theorem takeE_zero (b : List Nat) : takeE 0 b = .ok ([], b) := by
  simp [takeE]

theorem state_lt_of_valid (c : Nat) (h : validStateCode c = true) : c < 256 := by
  simp [validStateCode] at h
  rcases h with h | h | h | h <;> omega

theorem length_asBytes (m : Message) : 45 ≤ m.asBytes.length := by
  simp [Message.asBytes, length_leBytes]
  omega

theorem parseOneMessage_roundtrip (m : Message) (rest : List Nat) (hwf : m.wfb = true) :
    parseOneMessage (m.asBytes ++ rest) = .ok (m, rest) := by
  obtain ⟨off, st, ts, idv, ck, hd, len, pl⟩ := m
  cases hd with
  | none =>
    simp only [Message.wfb, Bool.and_eq_true, Bool.and_true, decide_eq_true_eq,
      beq_iff_eq] at hwf
    obtain ⟨⟨⟨⟨⟨⟨hoff, hst⟩, hts⟩, hid⟩, hck⟩, hlen⟩, hpl⟩ := hwf
    have hstlt : st < 256 := state_lt_of_valid st hst
    subst hlen
    have hexp : Message.asBytes ⟨off, st, ts, idv, ck, Option.none, pl.length, pl⟩ ++ rest
        = leBytes 8 off ++ (st :: (leBytes 8 ts ++ (leBytes 16 idv ++ (leBytes 4 ck ++
            (leBytes 4 0 ++ (leBytes 4 pl.length ++ (pl ++ rest))))))) := by
      simp [Message.asBytes, headersBytesOpt, Nat.mod_eq_of_lt hstlt, List.append_assoc]
    rw [hexp]
    simp [parseOneMessage, readLeE_append 8 _ _ hoff, readLeE_one, messageStateFromCode, hst,
      readLeE_append 8 _ _ hts, readLeE_append 16 _ _ hid, readLeE_append 4 _ _ hck,
      readLeE_append 4 0 _ (by norm_num), readLeE_append 4 _ _ hpl, takeE_zero, takeE_append,
      exceptBind_ok, exceptBind_error, exceptPure_eq]
  | some hs =>
    simp only [Message.wfb, Bool.and_eq_true, Bool.and_true, decide_eq_true_eq,
      beq_iff_eq, Bool.not_eq_true', List.isEmpty_eq_false] at hwf
    obtain ⟨⟨⟨⟨⟨⟨⟨hoff, hst⟩, hts⟩, hid⟩, hck⟩, ⟨⟨hne, hall⟩, hhlen⟩⟩, hlen⟩, hpl⟩ := hwf
    have hstlt : st < 256 := state_lt_of_valid st hst
    subst hlen
    have hexp : Message.asBytes ⟨off, st, ts, idv, ck, some hs, pl.length, pl⟩ ++ rest
        = leBytes 8 off ++ (st :: (leBytes 8 ts ++ (leBytes 16 idv ++ (leBytes 4 ck ++
            (leBytes 4 (headersToBytes hs).length ++ (headersToBytes hs ++
              (leBytes 4 pl.length ++ (pl ++ rest)))))))) := by
      simp [Message.asBytes, headersBytesOpt, Nat.mod_eq_of_lt hstlt, List.append_assoc]
    rw [hexp]
    have hpos : 0 < (headersToBytes hs).length := length_headersToBytes_pos hs hne
    have hfuel : hs.length ≤ (headersToBytes hs).length := length_headersToBytes_ge hs
    simp [parseOneMessage, readLeE_append 8 _ _ hoff, readLeE_one, messageStateFromCode, hst,
      readLeE_append 8 _ _ hts, readLeE_append 16 _ _ hid, readLeE_append 4 _ _ hck,
      readLeE_append 4 _ _ hhlen, readLeE_append 4 _ _ hpl, takeE_append, hpos,
      parseHeaders_roundtrip hs hall _ hfuel, exceptBind_ok, exceptBind_error, exceptPure_eq]

theorem parseMessages_succ_eq (fuel : Nat) (b : List Nat) (hb : b ≠ []) :
    parseMessages (fuel + 1) b = (do
      let (m, rest) ← parseOneMessage b
      let ms ← parseMessages fuel rest
      pure (m :: ms)) := by
  cases b with
  | nil => exact absurd rfl hb
  | cons x xs => rfl

theorem parseMessages_roundtrip (ms : List Message) (h : ms.all Message.wfb = true) :
    ∀ fuel, ms.length ≤ fuel →
      parseMessages fuel ((ms.map Message.asBytes).flatten) = .ok ms := by
  induction ms with
  | nil => intro fuel _; cases fuel <;> rfl
  | cons m t ih =>
    intro fuel hf
    simp only [List.all_cons, Bool.and_eq_true] at h
    obtain ⟨hm, ht⟩ := h
    cases fuel with
    | zero => simp at hf
    | succ f =>
      have hflat : ((m :: t).map Message.asBytes).flatten
          = m.asBytes ++ (t.map Message.asBytes).flatten := by simp
      have hne : m.asBytes ++ (t.map Message.asBytes).flatten ≠ [] := by
        intro e
        have h45 := length_asBytes m
        have hz : (m.asBytes ++ (t.map Message.asBytes).flatten).length = 0 := by
          rw [e]; rfl
        simp only [List.length_append] at hz
        omega
      have hfl : t.length ≤ f := by simp only [List.length_cons] at hf; omega
      rw [hflat, parseMessages_succ_eq f _ hne, parseOneMessage_roundtrip m _ hm]
      simp [ih ht f hfl, exceptBind_ok, exceptBind_error, exceptPure_eq]

theorem gzDecompress_gzCompress (d : List Nat) : gzDecompress (gzCompress d) = .ok d := by
  simp [gzDecompress, gzCompress, gzMagic]

theorem length_flatten_asBytes_ge (ms : List Message) :
    ms.length ≤ ((ms.map Message.asBytes).flatten).length := by
  induction ms with
  | nil => simp
  | cons m t ih =>
    have := length_asBytes m
    simp only [List.map_cons, List.flatten_cons, List.length_append, List.length_cons]
    omega

/-- Claim C6, counterexample: with the Gzip attributes byte 64 (compression
code 1, a valid code) and the well-formed empty message list, the encoded batch
keeps its payload uncompressed (it is not larger than `min_data_size`) while
`into_messages` unconditionally gunzips, so decoding the encoded batch fails
instead of returning the original list. -/
theorem C6_counterexample :
    CompressionAlgorithm.fromCode (compressionCode 64) = .ok CompressionAlgorithm.gzip ∧
    ([] : List Message).all Message.wfb = true ∧
    (MessagesBatch.messagesToBatch 0 0 64 []).bind MessagesBatch.intoMessages
      ≠ .ok ([] : List Message) := by
  refine ⟨rfl, rfl, ?_⟩
  decide

/-- Claim C6, amended: for every well-formed message list, decoding the encoded
batch returns the original list whenever the attributes select no compression,
or they select Gzip and the serialized payload is strictly larger than
`min_data_size` (so that the payload really is compressed and decoding inverts
it). -/
theorem C6_batch_roundtrip (base delta attrs : Nat) (msgs : List Message)
    (hwf : msgs.all Message.wfb = true)
    (hca : compressionCode attrs = 0 ∨
      (compressionCode attrs = 1 ∧
        CompressionAlgorithm.gzip.minDataSize < ((msgs.map Message.asBytes).flatten).length)) :
    (MessagesBatch.messagesToBatch base delta attrs msgs).bind MessagesBatch.intoMessages
      = .ok msgs := by
  have hfuel := length_flatten_asBytes_ge msgs
  rcases hca with h0 | ⟨h1, hlen⟩
  · simp only [MessagesBatch.messagesToBatch, h0, CompressionAlgorithm.fromCode,
      exceptBind_ok, exceptBindF_ok, exceptPure_eq]
    simp only [MessagesBatch.intoMessages, h0, CompressionAlgorithm.fromCode,
      exceptBind_ok, exceptBindF_ok, exceptPure_eq]
    exact parseMessages_roundtrip msgs hwf _ hfuel
  · simp only [MessagesBatch.messagesToBatch, h1, CompressionAlgorithm.fromCode,
      exceptBind_ok, exceptBindF_ok, exceptPure_eq]
    rw [if_pos hlen]
    simp only [exceptBindF_ok, MessagesBatch.intoMessages, h1, CompressionAlgorithm.fromCode,
      exceptBind_ok, exceptPure_eq, gzDecompress_gzCompress]
    exact parseMessages_roundtrip msgs hwf _ hfuel

/-- Witness for the amended claim C6, at one concrete well-formed message with
headers, no compression. -/
theorem C6_batch_roundtrip_witness :
    ([⟨1, 1, 2, 3, 4, some [⟨[97], 1, [5]⟩], 2, [7, 8]⟩] : List Message).all
        Message.wfb = true ∧
    (MessagesBatch.messagesToBatch 10 0 0
          [⟨1, 1, 2, 3, 4, some [⟨[97], 1, [5]⟩], 2, [7, 8]⟩]).bind
        MessagesBatch.intoMessages
      = .ok [⟨1, 1, 2, 3, 4, some [⟨[97], 1, [5]⟩], 2, [7, 8]⟩] :=
  ⟨by decide, C6_batch_roundtrip 10 0 0 _ (by decide) (Or.inl rfl)⟩

set_option maxRecDepth 100000 in
/-- Claim C1, evaluated at scenario E of the spec: `get_messages(8, 6)` on a
segment whose unsaved buffer spans 10..19 and whose disk holds 0..9 falls into
the mixed disk-and-buffer branch, yet returns only the disk messages 8 and 9:
the buffered batches are decoded and then dropped (the merge is unfinished in
the source), instead of the merged messages 8..13 the claim requires. -/
theorem C1_get_messages_drops_buffered_messages :
    Segment.getMessages c1storage c1seg 8 6 = .ok [c1msg 8, c1msg 9] ∧
    [c1msg 8, c1msg 9] ≠
      [c1msg 8, c1msg 9, c1msg 10, c1msg 11, c1msg 12, c1msg 13] := by
  exact ⟨by decide, by decide⟩

/-- Claim C2, evaluated at a failing input: appending a batch with
`last_message_offset = 4` to an open empty segment does grow
`current_size_bytes` by the batch size and does push the batch onto
`unsaved_messages`, but leaves `current_offset` at 0 instead of setting it to
4 — the assignment exists only in commented-out source. -/
theorem C2_append_messages_leaves_current_offset :
    (Segment.appendMessages c2seg c2batch 4).map Segment.currentSizeBytes
        = .ok (c2seg.currentSizeBytes + c2batch.getSizeBytes) ∧
    (Segment.appendMessages c2seg c2batch 4).map Segment.unsavedMessages
        = .ok (some [c2batch]) ∧
    (Segment.appendMessages c2seg c2batch 4).map Segment.currentOffset = .ok 0 := by
  exact ⟨by decide, by decide, by decide⟩

/-- Claim C3: `persist_messages` is a no-op on an absent or empty unsaved
buffer; otherwise, when both storage calls succeed, it clears the unsaved
index bytes and either closes a full segment (`end_offset = current_offset`,
`is_closed = true`, buffer dropped) or empties the buffer of a non-full
segment, touching nothing else — in particular `is_closed` keeps its value, so
an active segment stays active. -/
theorem C3_persist_messages_spec (storage : SegmentStorageM) (s : Segment) :
    ((s.unsavedMessages = Option.none ∨ s.unsavedMessages = some []) →
      Segment.persistMessages storage s = .ok s) ∧
    (∀ batches, s.unsavedMessages = some batches → batches ≠ [] →
      ∀ n, storage.saveMessages s batches = .ok n →
        storage.saveIndex s = .ok () →
        Segment.persistMessages storage s =
          .ok (if s.isFull then
                { s with unsavedIndexes := [], endOffset := s.currentOffset,
                         isClosed := true, unsavedMessages := Option.none }
               else
                { s with unsavedIndexes := [], unsavedMessages := some [] })) := by
  constructor
  · intro h
    rcases h with h | h <;> simp [Segment.persistMessages, h]
  · intro batches hb hne n hsave hindex
    simp only [Segment.persistMessages, hb]
    rw [if_neg (by simpa using hne)]
    simp only [hsave, hindex, exceptBind_ok, exceptBindF_ok]
    have hiso : ({ s with
          unsavedMessages := some batches,
          unsavedIndexes := ([] : List Nat) } : Segment).isFull = s.isFull := rfl
    rw [hiso]
    cases hf : s.isFull <;> simp [hf]

/-- Witness for claim C3 at a concrete non-full segment with one unsaved
batch and succeeding storage. -/
theorem C3_persist_messages_witness :
    Segment.persistMessages c1storage c3seg =
      .ok { c3seg with unsavedIndexes := [], unsavedMessages := some [] } := by
  have h := (C3_persist_messages_spec c1storage c3seg).2 [c2batch] rfl
    (by decide) 0 rfl rfl
  rw [h]
  decide

/-- Claim C10: `Topic::create` turns an explicit `Some 0` for the expiry or
the max size into `None`, and turns `None` into the configured retention
default, which is stored as `None` exactly when that default is zero — so a
topic created with expiry `None` is limited whenever the configured default is
non-zero. -/
theorem C10_topic_create_retention_defaults (config : SystemConfig)
    (streamId topicId : Nat) (name : List Nat) (partitionsCount : Nat)
    (expiry maxSize : Option Nat) (replicationFactor : Nat) :
    ∀ t, Topic.create config streamId topicId name partitionsCount expiry maxSize
        replicationFactor = .ok t →
      (expiry = some 0 → t.messageExpirySecs = Option.none) ∧
      (maxSize = some 0 → t.maxTopicSizeBytes = Option.none) ∧
      (expiry = Option.none →
        t.messageExpirySecs = (if config.messageExpiryDefault = 0 then Option.none
                               else some config.messageExpiryDefault)) ∧
      (maxSize = Option.none →
        t.maxTopicSizeBytes = (if config.maxTopicSizeDefault = 0 then Option.none
                               else some config.maxTopicSizeDefault)) := by
  intro t h
  simp only [Topic.create, Except.ok.injEq] at h
  subst h
  refine ⟨?_, ?_, ?_, ?_⟩ <;> intro he <;> subst he
  · rfl
  · rfl
  · cases hm : config.messageExpiryDefault <;> simp
  · cases hm : config.maxTopicSizeDefault <;> simp

/-- Witness for claim C10 at a concrete configuration with a non-zero expiry
default of 7 seconds, an absent expiry argument and an explicit zero max
size. -/
theorem C10_topic_create_retention_defaults_witness :
    ((Option.none : Option Nat) = some 0 →
      (Topic.mk 1 2 [116] 1 (some 7) Option.none 1).messageExpirySecs = Option.none) ∧
    (some 0 = some 0 →
      (Topic.mk 1 2 [116] 1 (some 7) Option.none 1).maxTopicSizeBytes = Option.none) ∧
    ((Option.none : Option Nat) = Option.none →
      (Topic.mk 1 2 [116] 1 (some 7) Option.none 1).messageExpirySecs =
        (if (7 : Nat) = 0 then Option.none else some 7)) ∧
    (some 0 = (Option.none : Option Nat) →
      (Topic.mk 1 2 [116] 1 (some 7) Option.none 1).maxTopicSizeBytes =
        (if (0 : Nat) = 0 then Option.none else some 0)) :=
  C10_topic_create_retention_defaults ⟨7, 0, 1000⟩ 1 2 [116] 1 Option.none (some 0) 1
    (Topic.mk 1 2 [116] 1 (some 7) Option.none 1) rfl

/-- Claim C9: when the storage delete fails inside `Stream::delete_topic`, the
call returns `CannotDeleteTopic(topic_id, stream_id)` and the stream is
returned unchanged, so the same identifier still resolves to the topic. -/
theorem C9_delete_topic_storage_failure (deleteOp : Topic → Except Error Unit)
    (s : Stream) (id : Identifier) (key : Nat) (topic : Topic) (e : Error)
    (hget : s.getTopicEntry id = .ok (key, topic))
    (hdel : deleteOp topic = .error e) :
    Stream.deleteTopic deleteOp s id
        = (s, .error (Error.cannotDeleteTopic topic.topicId s.streamId)) ∧
    (Stream.deleteTopic deleteOp s id).1.getTopic id = .ok topic := by
  have h1 : Stream.deleteTopic deleteOp s id
      = (s, .error (Error.cannotDeleteTopic topic.topicId s.streamId)) := by
    simp [Stream.deleteTopic, hget, hdel]
  refine ⟨h1, ?_⟩
  rw [h1]
  simp [Stream.getTopic, hget, Except.map]

/-- Witness for claim C9: deleting topic 2 of `c9s` with a failing storage
delete returns `CannotDeleteTopic(2, 1)` and leaves the topic addressable. -/
theorem C9_delete_topic_storage_failure_witness :
    Stream.deleteTopic (fun _ => .error .ioError) c9s (Identifier.numeric 2)
        = (c9s, .error (Error.cannotDeleteTopic 2 1)) ∧
    (Stream.deleteTopic (fun _ => .error .ioError) c9s (Identifier.numeric 2)).1.getTopic
        (Identifier.numeric 2) = .ok ⟨1, 2, [97], 1, Option.none, Option.none, 1⟩ :=
  C9_delete_topic_storage_failure (fun _ => .error .ioError) c9s
    (Identifier.numeric 2) 2 ⟨1, 2, [97], 1, Option.none, Option.none, 1⟩
    Error.ioError rfl rfl

/-- Claim C4, evaluated at a failing input: a creation request with
`max_topic_size_bytes = Some 100`, far below the configured segment size of
1000, passes `CreateTopic::validate` and succeeds in
`Stream::create_topic`, inserting the topic — the segment-size check exists
only as a TODO comment in the source, while the claim requires rejection. -/
theorem C4_small_max_topic_size_accepted :
    (Stream.createTopic (fun _ => .ok ()) c4s 2 [116] 3 (some 10) (some 100) 1).2
        = .ok () ∧
    lookupA (Stream.createTopic (fun _ => .ok ()) c4s 2 [116] 3 (some 10)
        (some 100) 1).1.topics 2 = some ⟨1, 2, [116], 3, some 10, some 100, 1⟩ ∧
    (100 : Nat) < c4s.config.segmentSizeBytes ∧
    CreateTopic.validate ⟨Identifier.numeric 1, 2, 3, some 10, some 100, 1, [116]⟩
        = .ok () := by
  exact ⟨by decide, by decide, by decide, by decide⟩

/-- Claim C8, evaluated at a failing sequence: create topic 1 named "a";
rename it to "b" addressing it by the name "a" — the source rewrites
`topics_ids` and only then re-resolves the stale named identifier, so the call
fails with `TopicNameNotFound` after the rename; then delete topic 1, which
removes the topic and its RECORDED name "a" from the maps.  The end state has
an empty topics map but a dangling "b" entry in the name-to-id map: the key
multiset and the value multiset differ. -/
theorem C8_update_then_delete_desyncs_maps :
    (Stream.createTopic (fun _ => .ok ()) c8s0 1 [97] 1 Option.none Option.none 1).2
        = .ok () ∧
    (Stream.updateTopic (fun _ => .ok ()) c8s1 (Identifier.named [97]) [98]
        Option.none Option.none 1).2 = .error (Error.topicNameNotFound [97] 1) ∧
    (Stream.deleteTopic (fun _ => .ok ()) c8s2 (Identifier.numeric 1)).2
        = .ok ⟨1, 1, [97], 1, Option.none, Option.none, 1⟩ ∧
    c8s3.topics.map Prod.fst = [] ∧
    c8s3.topicsIds.map Prod.snd = [1] := by
  exact ⟨by decide, by decide, by decide, by decide, by decide⟩

/-- Claim C5, evaluated at a failing input: with an unauthenticated session,
`find_topic`, `find_topics`, `create_topic`, `update_topic` and `delete_topic`
all return `Unauthenticated` before consulting the all-denying permissioner —
but `purge_topic` has no `ensure_authenticated` call and reaches the
permissioner, returning its `PermissionDenied` instead. -/
theorem C5_purge_topic_skips_authentication :
    System.findTopic c5sys c5session (Identifier.numeric 1) (Identifier.numeric 2)
        = .error .unauthenticated ∧
    System.findTopics c5sys c5session (Identifier.numeric 1)
        = .error .unauthenticated ∧
    (System.createTopic (fun _ => .ok ()) c5sys c5session (Identifier.numeric 1)
        3 [98] 1 Option.none Option.none 1).2 = .error .unauthenticated ∧
    (System.updateTopic (fun _ => .ok ()) c5sys c5session (Identifier.numeric 1)
        (Identifier.numeric 2) [98] Option.none Option.none 1).2
        = .error .unauthenticated ∧
    (System.deleteTopic (fun _ => .ok ()) c5sys c5session (Identifier.numeric 1)
        (Identifier.numeric 2)).2 = .error .unauthenticated ∧
    System.purgeTopic (fun _ => .ok ()) c5sys c5session (Identifier.numeric 1)
        (Identifier.numeric 2) = .error .permissionDenied := by
  refine ⟨rfl, rfl, rfl, rfl, rfl, ?_⟩
  rfl

theorem natToDec_ne_nil (n : Nat) : natToDec n ≠ [] := by
  unfold natToDec
  split <;> simp

theorem natToDec_digits (n : Nat) : ∀ d ∈ natToDec n, 48 ≤ d ∧ d ≤ 57 := by
  induction n using Nat.strong_induction_on with
  | _ n ih =>
    unfold natToDec
    split
    next h => intro d hd; simp at hd; omega
    next h =>
      intro d hd
      simp at hd
      rcases hd with hd | hd
      · exact ih (n / 10) (Nat.div_lt_self (by omega) (by omega)) d hd
      · have hlt : n % 10 < 10 := Nat.mod_lt _ (by omega)
        omega

theorem decToNatAux_append (a b : List Nat) (acc : Nat) :
    decToNatAux (a ++ b) acc =
      match decToNatAux a acc with
      | some acc2 => decToNatAux b acc2
      | Option.none => Option.none := by
  induction a generalizing acc with
  | nil => simp [decToNatAux]
  | cons d t ih =>
    simp only [List.cons_append, decToNatAux]
    split
    · exact ih _
    · rfl

theorem decToNatAux_natToDec (n : Nat) : ∀ acc,
    decToNatAux (natToDec n) acc = some (acc * 10 ^ (natToDec n).length + n) := by
  induction n using Nat.strong_induction_on with
  | _ n ih =>
    intro acc
    unfold natToDec
    split
    next h =>
      rw [decToNatAux, if_pos (by omega)]
      simp [decToNatAux]
    next h =>
      rw [decToNatAux_append, ih (n / 10) (Nat.div_lt_self (by omega) (by omega)) acc]
      have hd : n % 10 < 10 := Nat.mod_lt _ (by omega)
      simp only [decToNatAux]
      rw [if_pos (by omega)]
      simp only [decToNatAux, List.length_append, List.length_cons, List.length_nil]
      congr 1
      have hdm : 10 * (n / 10) + n % 10 = n := Nat.div_add_mod n 10
      have hsub : 48 + n % 10 - 48 = n % 10 := by omega
      rw [hsub]
      calc (acc * 10 ^ (natToDec (n / 10)).length + n / 10) * 10 + n % 10
          = acc * (10 ^ (natToDec (n / 10)).length * 10) + (10 * (n / 10) + n % 10) := by
            ring
        _ = acc * 10 ^ ((natToDec (n / 10)).length + 1) + n := by
            rw [hdm, pow_succ]

theorem decToNat_natToDec (n : Nat) : decToNat? (natToDec n) = some n := by
  have h := decToNatAux_natToDec n 0
  simp only [Nat.zero_mul, Nat.zero_add] at h
  rcases e : natToDec n with _ | ⟨d, t⟩
  · exact absurd e (natToDec_ne_nil n)
  · rw [e] at h
    simpa [decToNat?] using h

theorem parseUInt_natToDec (bound n : Nat) (h : n < bound) :
    parseUInt? bound (natToDec n) = some n := by
  simp [parseUInt?, decToNat_natToDec, h]

theorem parseUIntE_natToDec (bound n : Nat) (h : n < bound) :
    parseUIntE bound (natToDec n) = .ok n := by
  simp [parseUIntE, parseUInt_natToDec bound n h]

theorem natToDec_no_pipe (n : Nat) : ¬ 124 ∈ natToDec n := by
  intro hmem
  have := natToDec_digits n 124 hmem
  omega

theorem splitOnPipe_no_pipe (a : List Nat) (h : ¬ 124 ∈ a) : splitOnPipe a = [a] := by
  induction a with
  | nil => rfl
  | cons x t ih =>
    simp only [List.mem_cons, not_or] at h
    have hx : ¬ x = 124 := fun e => h.1 e.symm
    simp [splitOnPipe, ih h.2, hx]

theorem splitOnPipe_append (a rest : List Nat) (h : ¬ 124 ∈ a) :
    splitOnPipe (a ++ 124 :: rest) = a :: splitOnPipe rest := by
  induction a with
  | nil => simp [splitOnPipe]
  | cons x t ih =>
    simp only [List.mem_cons, not_or] at h
    have hx : ¬ x = 124 := fun e => h.1 e.symm
    simp [splitOnPipe, ih h.2, hx]

theorem takeE_self (a : List Nat) : takeE a.length a = .ok (a, []) := by
  simp [takeE]

theorem identifier_asBytes_length (id : Identifier) :
    id.asBytes.length = id.getSizeBytes := by
  cases id with
  | numeric v => simp [Identifier.asBytes, Identifier.getSizeBytes, length_leBytes]
  | named s => simp [Identifier.asBytes, Identifier.getSizeBytes]; omega

theorem identifier_fromBytes_append (id : Identifier) (r : List Nat)
    (h : id.wfb = true) : Identifier.fromBytes (id.asBytes ++ r) = .ok id := by
  cases id with
  | numeric v =>
    simp only [Identifier.wfb, decide_eq_true_eq] at h
    have ht := take_len_append (leBytes 4 v) r
    rw [length_leBytes] at ht
    simp [Identifier.asBytes, Identifier.fromBytes, List.length_append, length_leBytes,
      ht, leVal_leBytes, Nat.mod_eq_of_lt h]
    omega
  | named s =>
    simp only [Identifier.wfb, Bool.and_eq_true, decide_eq_true_eq] at h
    obtain ⟨⟨h1, h2⟩, _⟩ := h
    have hm : s.length % 256 = s.length := Nat.mod_eq_of_lt (by omega)
    simp [Identifier.asBytes, Identifier.fromBytes, hm, h1, h2, List.length_append,
      take_len_append]

theorem identifier_fromStr_display (id : Identifier) (hwf : id.wfb = true)
    (hsafe : id.textSafe = true) :
    Identifier.fromStrBytes id.displayBytes = .ok id := by
  cases id with
  | numeric v =>
    simp only [Identifier.wfb, decide_eq_true_eq] at hwf
    show Identifier.fromStrBytes (natToDec v) = .ok (.numeric v)
    unfold Identifier.fromStrBytes
    rw [parseUInt_natToDec (2 ^ 32) v hwf]
  | named s =>
    simp only [Identifier.wfb, Bool.and_eq_true, decide_eq_true_eq] at hwf
    obtain ⟨⟨h1, h2⟩, _⟩ := hwf
    simp only [Identifier.textSafe, Bool.and_eq_true, decide_eq_true_eq,
      Option.isNone_iff_eq_none] at hsafe
    show Identifier.fromStrBytes s = .ok (.named s)
    unfold Identifier.fromStrBytes
    rw [hsafe.2]
    simp [h1, h2]

theorem identifier_display_no_pipe (id : Identifier) (hsafe : id.textSafe = true) :
    ¬ 124 ∈ id.displayBytes := by
  cases id with
  | numeric v => exact natToDec_no_pipe v
  | named s =>
    simp only [Identifier.textSafe, Bool.and_eq_true, decide_eq_true_eq] at hsafe
    exact hsafe.1

theorem resourceName_no_pipe (name : List Nat) (h : isResourceNameValid name = true) :
    ¬ 124 ∈ name := by
  intro hm
  simp only [isResourceNameValid, List.all_eq_true] at h
  exact absurd (h 124 hm) (by decide)

theorem validate_facts (c : CreateTopic) (h : c.validate = .ok ()) :
    c.topicId ≠ 0 ∧ c.name ≠ [] ∧ c.name.length ≤ MAX_NAME_LENGTH ∧
    isResourceNameValid c.name = true ∧ c.partitionsCount ≤ MAX_PARTITIONS_COUNT ∧
    c.replicationFactor ≠ 0 := by
  unfold CreateTopic.validate at h
  split_ifs at h with h1 h2 h3 h4 h5
  all_goals simp at h
  simp only [Bool.or_eq_true, not_or, List.isEmpty_eq_true, decide_eq_true_eq] at h2
  simp at h3 h4
  exact ⟨h1, h2.1, by have := h2.2; omega, h3, h4, h5⟩

theorem optZero_roundtrip (o : Option Nat) (h : o ≠ some 0) :
    (match o.getD 0 with | 0 => Option.none | v => some v) = o := by
  cases o with
  | none => rfl
  | some v =>
    cases v with
    | zero => exact absurd rfl h
    | succ k => rfl

theorem optZero_parse_roundtrip (bound : Nat) (o : Option Nat) (h : o ≠ some 0)
    (hb : o.getD 0 < bound) :
    (match parseUInt? bound (natToDec (o.getD 0)) with
     | some 0 => Option.none
     | some v => some v
     | Option.none => Option.none) = o := by
  rw [parseUInt_natToDec bound _ hb]
  cases o with
  | none => rfl
  | some v =>
    cases v with
    | zero => exact absurd rfl h
    | succ k => rfl

/-- Claim C7, amended: for every `CreateTopic` value that passes `validate`,
carries in-range field values, whose optional fields are not `Some 0`, the
binary round trip `from_bytes(as_bytes(x)) = x` holds; the textual round trip
`from_str(to_string(x)) = x` additionally needs the stream identifier to be
textually unambiguous (a numeric id, or a name without a pipe byte that does
not itself parse as a `u32`). -/
theorem C7_create_topic_roundtrip (x : CreateTopic)
    (hv : x.validate = .ok ()) (hwf : x.wfb = true)
    (he : x.messageExpirySecs ≠ some 0) (hm : x.maxTopicSizeBytes ≠ some 0) :
    CreateTopic.fromBytes x.asBytes = .ok x ∧
    (x.streamId.textSafe = true →
      CreateTopic.fromStrBytes x.toStringBytes = .ok x) := by
  obtain ⟨hid0, hnm_ne, hnm_le, hnm_res, hpc_le, hrf0⟩ := validate_facts x hv
  simp only [CreateTopic.wfb, Bool.and_eq_true, decide_eq_true_eq] at hwf
  obtain ⟨⟨⟨⟨⟨⟨hidwf, htid⟩, hpc⟩, hexp⟩, hmax⟩, hrf⟩, hnmb⟩ := hwf
  have hexpb : x.messageExpirySecs.getD 0 < 2 ^ 32 := by
    cases hx : x.messageExpirySecs with
    | none => simp
    | some v => rw [hx] at hexp; simp at hexp; simpa [hx] using hexp
  have hmaxb : x.maxTopicSizeBytes.getD 0 < 2 ^ 64 := by
    cases hx : x.maxTopicSizeBytes with
    | none => simp
    | some v => rw [hx] at hmax; simp at hmax; simpa [hx] using hmax
  constructor
  · -- binary round trip
    have hrfm : x.replicationFactor % 256 = x.replicationFactor := Nat.mod_eq_of_lt hrf
    have hnml : x.name.length % 256 = x.name.length := by
      have : MAX_NAME_LENGTH = 255 := rfl
      exact Nat.mod_eq_of_lt (by omega)
    have hshape : x.asBytes = x.streamId.asBytes ++ (leBytes 4 x.topicId ++
        (leBytes 4 x.partitionsCount ++ (leBytes 4 (x.messageExpirySecs.getD 0) ++
        (leBytes 8 (x.maxTopicSizeBytes.getD 0) ++
        (x.replicationFactor :: x.name.length :: x.name))))) := by
      simp [CreateTopic.asBytes, hrfm, hnml, List.append_assoc]
    have hlen : ¬ (x.streamId.asBytes ++ (leBytes 4 x.topicId ++
        (leBytes 4 x.partitionsCount ++ (leBytes 4 (x.messageExpirySecs.getD 0) ++
        (leBytes 8 (x.maxTopicSizeBytes.getD 0) ++
        (x.replicationFactor :: x.name.length :: x.name)))))).length < 18 := by
      simp [List.length_append, length_leBytes]
      omega
    have hdrop : (x.streamId.asBytes ++ (leBytes 4 x.topicId ++
        (leBytes 4 x.partitionsCount ++ (leBytes 4 (x.messageExpirySecs.getD 0) ++
        (leBytes 8 (x.maxTopicSizeBytes.getD 0) ++
        (x.replicationFactor :: x.name.length :: x.name)))))).drop
          x.streamId.getSizeBytes
        = leBytes 4 x.topicId ++ (leBytes 4 x.partitionsCount ++
            (leBytes 4 (x.messageExpirySecs.getD 0) ++
            (leBytes 8 (x.maxTopicSizeBytes.getD 0) ++
            (x.replicationFactor :: x.name.length :: x.name)))) := by
      have t := drop_len_append x.streamId.asBytes (leBytes 4 x.topicId ++
        (leBytes 4 x.partitionsCount ++ (leBytes 4 (x.messageExpirySecs.getD 0) ++
        (leBytes 8 (x.maxTopicSizeBytes.getD 0) ++
        (x.replicationFactor :: x.name.length :: x.name)))))
      rw [identifier_asBytes_length] at t
      exact t
    rw [hshape]
    unfold CreateTopic.fromBytes
    rw [if_neg hlen, identifier_fromBytes_append x.streamId _ hidwf]
    simp only [hdrop, readLeE_append 4 _ _ htid, readLeE_append 4 _ _ hpc,
      readLeE_append 4 _ _ hexpb, readLeE_append 8 _ _ hmaxb, takeE_self,
      exceptBind_ok, exceptBindF_ok, exceptPure_eq,
      optZero_roundtrip x.messageExpirySecs he, optZero_roundtrip x.maxTopicSizeBytes hm]
    rw [hv]
    rfl
  · -- textual round trip
    intro hsafe
    have hd0 : ¬ 124 ∈ x.streamId.displayBytes := identifier_display_no_pipe _ hsafe
    have hnp : ¬ 124 ∈ x.name := resourceName_no_pipe _ hnm_res
    have hshape : x.toStringBytes = x.streamId.displayBytes ++ 124 ::
        (natToDec x.topicId ++ 124 :: (natToDec x.partitionsCount ++ 124 ::
        (natToDec (x.messageExpirySecs.getD 0) ++ 124 ::
        (natToDec (x.maxTopicSizeBytes.getD 0) ++ 124 ::
        (natToDec x.replicationFactor ++ 124 :: x.name))))) := by
      simp [CreateTopic.toStringBytes, List.append_assoc]
    rw [hshape]
    unfold CreateTopic.fromStrBytes
    rw [splitOnPipe_append _ _ hd0, splitOnPipe_append _ _ (natToDec_no_pipe _),
      splitOnPipe_append _ _ (natToDec_no_pipe _),
      splitOnPipe_append _ _ (natToDec_no_pipe _),
      splitOnPipe_append _ _ (natToDec_no_pipe _),
      splitOnPipe_append _ _ (natToDec_no_pipe _),
      splitOnPipe_no_pipe _ hnp]
    rw [if_neg (by simp)]
    simp only [List.getD_cons_succ, List.getD_cons_zero]
    rw [identifier_fromStr_display x.streamId hidwf hsafe]
    simp only [parseUIntE_natToDec (2 ^ 32) x.topicId htid,
      parseUIntE_natToDec (2 ^ 32) x.partitionsCount hpc,
      parseUIntE_natToDec 256 x.replicationFactor hrf,
      optZero_parse_roundtrip (2 ^ 32) x.messageExpirySecs he hexpb,
      optZero_parse_roundtrip (2 ^ 64) x.maxTopicSizeBytes hm hmaxb,
      exceptBind_ok, exceptBindF_ok, exceptPure_eq]
    rw [hv]
    rfl

/-- Witness for the amended claim C7 at a concrete command: stream "ab",
topic 3, 2 partitions, expiry 10 seconds, unlimited size, replication 1,
name "t1". -/
theorem C7_create_topic_roundtrip_witness :
    CreateTopic.validate
        ⟨Identifier.named [97, 98], 3, 2, some 10, Option.none, 1, [116, 49]⟩
      = .ok () ∧
    CreateTopic.fromBytes (CreateTopic.asBytes
        ⟨Identifier.named [97, 98], 3, 2, some 10, Option.none, 1, [116, 49]⟩)
      = .ok ⟨Identifier.named [97, 98], 3, 2, some 10, Option.none, 1, [116, 49]⟩ ∧
    CreateTopic.fromStrBytes (CreateTopic.toStringBytes
        ⟨Identifier.named [97, 98], 3, 2, some 10, Option.none, 1, [116, 49]⟩)
      = .ok ⟨Identifier.named [97, 98], 3, 2, some 10, Option.none, 1, [116, 49]⟩ :=
  ⟨by decide,
   (C7_create_topic_roundtrip
      ⟨Identifier.named [97, 98], 3, 2, some 10, Option.none, 1, [116, 49]⟩
      (by decide) (by decide) (by decide) (by decide)).1,
   (C7_create_topic_roundtrip
      ⟨Identifier.named [97, 98], 3, 2, some 10, Option.none, 1, [116, 49]⟩
      (by decide) (by decide) (by decide) (by decide)).2 (by decide)⟩

/-- Claim C7, counterexample: the command with `message_expiry_secs = Some 0`
passes `validate`, but both encoders write the 0 that decodes to `None`, so
neither round trip restores the value. -/
theorem C7_counterexample :
    CreateTopic.validate ⟨Identifier.numeric 1, 1, 1, some 0, Option.none, 1, [116]⟩
      = .ok () ∧
    CreateTopic.fromBytes (CreateTopic.asBytes
        ⟨Identifier.numeric 1, 1, 1, some 0, Option.none, 1, [116]⟩)
      ≠ .ok ⟨Identifier.numeric 1, 1, 1, some 0, Option.none, 1, [116]⟩ ∧
    CreateTopic.fromStrBytes (CreateTopic.toStringBytes
        ⟨Identifier.numeric 1, 1, 1, some 0, Option.none, 1, [116]⟩)
      ≠ .ok ⟨Identifier.numeric 1, 1, 1, some 0, Option.none, 1, [116]⟩ := by
  have h1 : natToDec 1 = [49] := by unfold natToDec; norm_num
  have h0 : natToDec 0 = [48] := by unfold natToDec; norm_num
  have hts : CreateTopic.toStringBytes
      ⟨Identifier.numeric 1, 1, 1, some 0, Option.none, 1, [116]⟩
      = [49, 124, 49, 124, 49, 124, 48, 124, 48, 124, 49, 124, 116] := by
    simp [CreateTopic.toStringBytes, Identifier.displayBytes, h1, h0]
  refine ⟨by decide, by decide, ?_⟩
  rw [hts]
  decide

end Iggy

